import Mathlib

/-!
Verification of the `EnrichedDAGConcept` graph store
(`src/concepts/EnrichedDAG/EnrichedDAGConcept.ts`).

The store keeps three MongoDB collections (graphs, nodes, edges).  We embed
a collection as a Lean list of documents kept in insertion order:
`findOne` with an equality filter becomes `List.find?`, `insertOne` appends,
`deleteMany` filters, and `deleteOne` / `updateOne` act on the first matching
element (MongoDB semantics for a single-document operation; the `_id` field
carries a unique index, so on id-keyed filters first-match and all-match
agree).  Fresh identifiers minted by `freshID()` are modelled by a counter
`nextId` carried in the store state; identifiers are opaque tokens, so `Nat`
stands for the id type.  The opaque `enrichment` payload is likewise an
opaque identifier in the source (`type Object = ID`) and is modelled by `Nat`.

Each action returns its result together with the post-state.  Error strings
of the source are represented by the constructors of `DagError`; every
constructor corresponds to exactly one error string of the source, recorded
in its doc comment.
-/

/-- Opaque identifier type (`ID` in the source, a freshly minted token). -/
abbrev NodeId := Nat

/-- State: a set of Graphs with owner User and title String (`GraphDoc`). -/
structure GraphDoc where
  _id : NodeId
  owner : NodeId
  title : String
deriving DecidableEq

/-- State: a set of Nodes with parent Graph, title String and enrichment
Object (`NodeDoc`). -/
structure NodeDoc where
  _id : NodeId
  parent : NodeId
  title : String
  enrichment : NodeId
deriving DecidableEq

/-- State: a set of Edges with source Node, target Node and enrichment
Object (`EdgeDoc`). -/
structure EdgeDoc where
  _id : NodeId
  source : NodeId
  target : NodeId
  enrichment : NodeId
deriving DecidableEq

/-- The three collections of the concept plus the fresh-id counter. -/
structure StoreState where
  graphs : List GraphDoc
  nodes : List NodeDoc
  edges : List EdgeDoc
  nextId : NodeId
deriving DecidableEq

/-- The store backed by a fresh database: all collections empty. -/
def emptyStore : StoreState := ⟨[], [], [], 0⟩

/-- One constructor per distinct error string returned by the source. -/
inductive DagError
  /-- "A graph with this title already exists for this user" -/
  | duplicateGraph
  /-- "No graph found with this owner and title" -/
  | noGraphWithOwnerTitle
  /-- "Graph not found" -/
  | graphNotFound
  /-- "A node with this title already exists in this graph" -/
  | duplicateNodeTitle
  /-- "No node found with this title in this graph" -/
  | noNodeWithTitle
  /-- "Node not found or does not belong to this graph" (source text uses a
  contraction) -/
  | nodeNotFoundOrNotInGraph
  /-- "One or both nodes not found" -/
  | nodesNotFound
  /-- "Nodes must belong to the same graph" -/
  | crossGraphEdge
  /-- "Edge already exists between these nodes" -/
  | duplicateEdge
  /-- "Adding this edge would create a cycle in the graph" -/
  | cycleDetected
  /-- "No edge found between these nodes" -/
  | noEdgeBetweenNodes
  /-- "Node not found" -/
  | nodeNotFound
  /-- "Edge not found" -/
  | edgeNotFound
deriving DecidableEq

instance {ε α : Type} [DecidableEq ε] [DecidableEq α] : DecidableEq (Except ε α) :=
  fun a b =>
    match a, b with
    | .ok x, .ok y => decidable_of_iff (x = y) (by simp)
    | .error x, .error y => decidable_of_iff (x = y) (by simp)
    | .ok _, .error _ => .isFalse (by simp)
    | .error _, .ok _ => .isFalse (by simp)

/-- `deleteOne`: remove the first document matching the filter (MongoDB
deletes a single document; with no match the collection is unchanged). -/
def deleteFirst (p : α → Bool) : List α → List α
  | [] => []
  | a :: l => if p a then l else a :: deleteFirst p l

/-- `updateOne` with `$set title`: update the title of the first node
matching the id filter. -/
def updateNodeTitleFirst : List NodeDoc → NodeId → String → List NodeDoc
  | [], _, _ => []
  | n :: l, node, newTitle =>
    if n._id == node then { n with title := newTitle } :: l
    else n :: updateNodeTitleFirst l node newTitle

/-- Action `createEmptyGraph`: reject an `(owner, title)` collision,
otherwise insert a graph document under a fresh id. -/
def createEmptyGraph (s : StoreState) (owner : NodeId) (graphTitle : String) :
    Except DagError NodeId × StoreState :=
  match s.graphs.find? (fun g => g.owner == owner && g.title == graphTitle) with
  | some _ => (.error .duplicateGraph, s)
  | none =>
    let graphId := s.nextId
    (.ok graphId,
      { s with
          graphs := s.graphs ++ [{ _id := graphId, owner := owner, title := graphTitle }],
          nextId := s.nextId + 1 })

/-- Action `accessGraph`: pure lookup by `(owner, title)`. -/
def accessGraph (s : StoreState) (owner : NodeId) (graphTitle : String) :
    Except DagError NodeId :=
  match s.graphs.find? (fun g => g.owner == owner && g.title == graphTitle) with
  | none => .error .noGraphWithOwnerTitle
  | some g => .ok g._id

/-- Action `addNode`: require the graph to exist and the `(parent, title)`
pair to be free, then insert a node document under a fresh id. -/
def addNode (s : StoreState) (graph : NodeId) (nodeTitle : String)
    (enrichment : NodeId) : Except DagError NodeId × StoreState :=
  match s.graphs.find? (fun g => g._id == graph) with
  | none => (.error .graphNotFound, s)
  | some _ =>
    match s.nodes.find? (fun n => n.parent == graph && n.title == nodeTitle) with
    | some _ => (.error .duplicateNodeTitle, s)
    | none =>
      let nodeId := s.nextId
      (.ok nodeId,
        { s with
            nodes := s.nodes ++
              [{ _id := nodeId, parent := graph, title := nodeTitle,
                 enrichment := enrichment }],
            nextId := s.nextId + 1 })

/-- Action `accessNode`: pure lookup by `(parent, title)`. -/
def accessNode (s : StoreState) (graph : NodeId) (nodeTitle : String) :
    Except DagError NodeId :=
  match s.nodes.find? (fun n => n.parent == graph && n.title == nodeTitle) with
  | none => .error .noNodeWithTitle
  | some n => .ok n._id

/-- Action `changeNodeTitle`: the node must exist and belong to the graph;
the new title must not be held by any node of the graph (the lookup does not
exclude the renamed node itself); then the title is updated in place. -/
def changeNodeTitle (s : StoreState) (graph node : NodeId)
    (newNodeTitle : String) : Except DagError Unit × StoreState :=
  match s.nodes.find? (fun n => n._id == node) with
  | none => (.error .nodeNotFoundOrNotInGraph, s)
  | some nodeDoc =>
    if nodeDoc.parent != graph then (.error .nodeNotFoundOrNotInGraph, s)
    else
      match s.nodes.find? (fun n => n.parent == graph && n.title == newNodeTitle) with
      | some _ => (.error .duplicateNodeTitle, s)
      | none =>
        (.ok (), { s with nodes := updateNodeTitleFirst s.nodes node newNodeTitle })

/-- Adjacency lookup of the DFS: the source builds a map from every edge in
insertion order, so the successor list of `n` is the target of every edge
with source `n`, in collection order. -/
def adj (edges : List EdgeDoc) (n : NodeId) : List NodeId :=
  (edges.filter (fun e => e.source == n)).map (fun e => e.target)

/-- The DFS worklist loop of `wouldCreateCycle`: pop `current` from the
stack, succeed if it is the searched source node, skip it when already
visited, otherwise mark it visited and push its not-yet-visited successors.
The `fuel` argument bounds the number of loop iterations; `dfsFuel` below is
proved sufficient, so the `fuel = 0` branch is never taken from
`wouldCreateCycle`. -/
def dfsReaches (edges : List EdgeDoc) (sourceNode : NodeId) :
    Nat → List NodeId → List NodeId → Bool
  | _, _, [] => false
  | 0, _, _ :: _ => false
  | fuel + 1, visited, current :: stack =>
    if current == sourceNode then true
    else if visited.contains current then dfsReaches edges sourceNode fuel visited stack
    else
      let visited' := current :: visited
      let pushed := (adj edges current).filter (fun m => !(visited'.contains m))
      dfsReaches edges sourceNode fuel visited' (pushed.reverse ++ stack)

/-- Iteration bound for the DFS loop: every pushed node is an edge target
or the start node, and each is expanded at most once. -/
def dfsFuel (edges : List EdgeDoc) : Nat :=
  (edges.length + 1) * (edges.length + 2) + 2

/-- Helper `wouldCreateCycle`: a self-loop is an immediate cycle; otherwise
run the DFS from `targetNode` over the full edge collection and test whether
`sourceNode` is reachable. -/
def wouldCreateCycle (edges : List EdgeDoc) (sourceNode targetNode : NodeId) :
    Bool :=
  if sourceNode == targetNode then true
  else dfsReaches edges sourceNode (dfsFuel edges) [] [targetNode]

/-- Action `addEdge`: graph existence, node existence, graph membership of
both endpoints, edge uniqueness and acyclicity are checked in this order;
only when every check passes is the edge document inserted under a fresh
id. -/
def addEdge (s : StoreState) (graph sourceNode targetNode enrichment : NodeId) :
    Except DagError NodeId × StoreState :=
  match s.graphs.find? (fun g => g._id == graph) with
  | none => (.error .graphNotFound, s)
  | some _ =>
    match s.nodes.find? (fun n => n._id == sourceNode),
          s.nodes.find? (fun n => n._id == targetNode) with
    | none, _ => (.error .nodesNotFound, s)
    | some _, none => (.error .nodesNotFound, s)
    | some sourceDoc, some targetDoc =>
      if sourceDoc.parent != graph || targetDoc.parent != graph then
        (.error .crossGraphEdge, s)
      else
        match s.edges.find? (fun e => e.source == sourceNode && e.target == targetNode) with
        | some _ => (.error .duplicateEdge, s)
        | none =>
          if wouldCreateCycle s.edges sourceNode targetNode then
            (.error .cycleDetected, s)
          else
            let edgeId := s.nextId
            (.ok edgeId,
              { s with
                  edges := s.edges ++
                    [{ _id := edgeId, source := sourceNode, target := targetNode,
                       enrichment := enrichment }],
                  nextId := s.nextId + 1 })

/-- Action `accessEdge`: the graph must exist; then the edge is looked up by
its `(source, target)` pair alone — the endpoints are never compared with
the graph argument. -/
def accessEdge (s : StoreState) (graph sourceNode targetNode : NodeId) :
    Except DagError NodeId :=
  match s.graphs.find? (fun g => g._id == graph) with
  | none => .error .graphNotFound
  | some _ =>
    match s.edges.find? (fun e => e.source == sourceNode && e.target == targetNode) with
    | none => .error .noEdgeBetweenNodes
    | some e => .ok e._id

/-- Action `removeNode`: the node must exist; every edge touching it is
deleted, then the node itself. -/
def removeNode (s : StoreState) (node : NodeId) :
    Except DagError Unit × StoreState :=
  match s.nodes.find? (fun n => n._id == node) with
  | none => (.error .nodeNotFound, s)
  | some _ =>
    (.ok (),
      { s with
          edges := s.edges.filter (fun e => !(e.source == node || e.target == node)),
          nodes := deleteFirst (fun n => n._id == node) s.nodes })

/-- Action `removeEdge`: delete the edge document; report `edgeNotFound`
when nothing was deleted. -/
def removeEdge (s : StoreState) (edge : NodeId) :
    Except DagError Unit × StoreState :=
  match s.edges.find? (fun e => e._id == edge) with
  | none => (.error .edgeNotFound, s)
  | some _ =>
    (.ok (), { s with edges := deleteFirst (fun e => e._id == edge) s.edges })

/-- Action `deleteGraph`: the graph must exist; every edge touching a child
node is deleted (the source guards the edge deletion behind a non-empty
child list), then the child nodes, then the graph document. -/
def deleteGraph (s : StoreState) (graph : NodeId) :
    Except DagError Unit × StoreState :=
  match s.graphs.find? (fun g => g._id == graph) with
  | none => (.error .graphNotFound, s)
  | some _ =>
    let nodeIds := (s.nodes.filter (fun n => n.parent == graph)).map (fun n => n._id)
    (.ok (),
      { s with
          edges :=
            if nodeIds.length > 0 then
              s.edges.filter
                (fun e => !(nodeIds.contains e.source || nodeIds.contains e.target))
            else s.edges,
          nodes := s.nodes.filter (fun n => !(n.parent == graph)),
          graphs := deleteFirst (fun g => g._id == graph) s.graphs })

/-- Query `_getGraphNodes`: all nodes whose parent is the given graph. -/
def _getGraphNodes (s : StoreState) (graph : NodeId) : List NodeDoc :=
  s.nodes.filter (fun n => n.parent == graph)

/-- Query `_getGraphEdges`: all edges whose both endpoints are nodes of the
given graph; with no child nodes the empty list is returned directly. -/
def _getGraphEdges (s : StoreState) (graph : NodeId) : List EdgeDoc :=
  let nodeIds := (s.nodes.filter (fun n => n.parent == graph)).map (fun n => n._id)
  if nodeIds.length == 0 then []
  else s.edges.filter (fun e => nodeIds.contains e.source && nodeIds.contains e.target)

/-- Query `_getNodeOutgoingEdges`: all edges with the given source. -/
def _getNodeOutgoingEdges (s : StoreState) (node : NodeId) : List EdgeDoc :=
  s.edges.filter (fun e => e.source == node)

/-- Query `_getNodeIncomingEdges`: all edges with the given target. -/
def _getNodeIncomingEdges (s : StoreState) (node : NodeId) : List EdgeDoc :=
  s.edges.filter (fun e => e.target == node)

/-- The mutating operations of the store, with their arguments. -/
inductive GraphOp
  | createEmptyGraph (owner : NodeId) (graphTitle : String)
  | addNode (graph : NodeId) (nodeTitle : String) (enrichment : NodeId)
  | changeNodeTitle (graph node : NodeId) (newNodeTitle : String)
  | addEdge (graph sourceNode targetNode enrichment : NodeId)
  | removeNode (node : NodeId)
  | removeEdge (edge : NodeId)
  | deleteGraph (graph : NodeId)

/-- Post-state of one operation (successful or failed). -/
def applyOp (s : StoreState) : GraphOp → StoreState
  | .createEmptyGraph o t => (createEmptyGraph s o t).2
  | .addNode g t e => (addNode s g t e).2
  | .changeNodeTitle g n t => (changeNodeTitle s g n t).2
  | .addEdge g a b e => (addEdge s g a b e).2
  | .removeNode n => (removeNode s n).2
  | .removeEdge e => (removeEdge s e).2
  | .deleteGraph g => (deleteGraph s g).2

/-- Store states reachable from the empty store by any operation
sequence. -/
inductive ReachableState : StoreState → Prop
  | init : ReachableState emptyStore
  | step (s : StoreState) (op : GraphOp) :
      ReachableState s → ReachableState (applyOp s op)

/-- One edge step of the stored edge relation: some edge document leads
from `a` to `b`. -/
def edgeStep (edges : List EdgeDoc) (a b : NodeId) : Prop :=
  ∃ e ∈ edges, e.source = a ∧ e.target = b

/-- Reachability via zero or more stored edges. -/
def Reach (edges : List EdgeDoc) : NodeId → NodeId → Prop :=
  Relation.ReflTransGen (edgeStep edges)

/-- The stored edge relation is acyclic: no node lies on a directed cycle
(one or more edges); a self-loop is the one-edge case. -/
def Acyclic (edges : List EdgeDoc) : Prop :=
  ∀ n, ¬ Relation.TransGen (edgeStep edges) n n

/-- Nodes the DFS can still mark visited: the start node and every edge
target that is not yet marked. -/
def unvisitedCount (t : NodeId) (edges : List EdgeDoc) (visited : List NodeId) : Nat :=
  ((t :: edges.map (fun e => e.target)).filter
    (fun x => !(visited.contains x))).length

/-! ### The reachable-state invariant -/

/-- No two node documents of the same graph share a title (this is the
invariant behind claim C5). -/
def TitlesUnique (s : StoreState) : Prop :=
  s.nodes.Pairwise (fun a b => a.parent = b.parent → a.title ≠ b.title)

/-- Every node document refers to an existing graph document. -/
def ParentsExist (s : StoreState) : Prop :=
  ∀ n ∈ s.nodes, ∃ g ∈ s.graphs, g._id = n.parent

/-- Invariant maintained by every store operation, used by the claims. -/
structure StoreInv (s : StoreState) : Prop where
  titles : TitlesUnique s
  acyclic : Acyclic s.edges
  parents : ParentsExist s

/-! ### Demonstration stores for the witnesses -/

/-- Store built by the scenario of the spec: graph 0 (owner 100, "Deps")
with nodes A = 1, B = 2, C = 3 and edges 1→2 (id 4), 2→3 (id 5). -/
def demoStore : StoreState :=
  (addEdge (addEdge (addNode (addNode (addNode
    (createEmptyGraph emptyStore 100 "Deps").2
    0 "A" 7).2 0 "B" 7).2 0 "C" 7).2 0 1 2 9).2 0 2 3 9).2

/-- `demoStore` extended by a second graph 6 (owner 100, "Other") with
nodes R = 7, S = 8 and edge 7→8 (id 9). -/
def demoStore2 : StoreState :=
  (addEdge (addNode (addNode
    (createEmptyGraph demoStore 100 "Other").2 6 "R" 7).2 6 "S" 7).2 6 7 8 9).2

/-- Minimal store for the C8 counterexample: graph 0 ("G") containing one
node 1 with title "A". -/
def c8Store : StoreState :=
  (addNode (createEmptyGraph emptyStore 100 "G").2 0 "A" 7).2

/-! ### Correctness of the DFS against the reachability relation -/

lemma mem_adj {edges : List EdgeDoc} {n m : NodeId} :
    m ∈ adj edges n ↔ edgeStep edges n m := by
  simp only [adj, edgeStep, List.mem_map, List.mem_filter, beq_iff_eq]
  constructor
  · rintro ⟨e, ⟨he, hs⟩, ht⟩
    exact ⟨e, he, hs, ht⟩
  · rintro ⟨e, he, hs, ht⟩
    exact ⟨e, ⟨he, hs⟩, ht⟩

lemma dfsReaches_sound (edges : List EdgeDoc) (src t : NodeId) :
    ∀ (fuel : Nat) (visited stack : List NodeId),
      (∀ x ∈ stack, Reach edges t x) →
      dfsReaches edges src fuel visited stack = true → Reach edges t src := by
  intro fuel
  induction fuel with
  | zero =>
    intro visited stack _ hrun
    cases stack <;> simp [dfsReaches] at hrun
  | succ fuel ih =>
    intro visited stack hstack hrun
    cases stack with
    | nil => simp [dfsReaches] at hrun
    | cons current rest =>
      by_cases hcs : current = src
      · exact hcs ▸ hstack current (List.mem_cons_self current rest)
      · rw [dfsReaches, if_neg (by simpa using hcs)] at hrun
        by_cases hcv : visited.contains current = true
        · rw [if_pos hcv] at hrun
          exact ih visited rest (fun x hx => hstack x (List.mem_cons_of_mem _ hx)) hrun
        · rw [if_neg hcv] at hrun
          refine ih _ _ (fun x hx => ?_) hrun
          rcases List.mem_append.mp hx with hx | hx
          · have hx' := List.mem_filter.mp (List.mem_reverse.mp hx)
            exact (hstack current (List.mem_cons_self current rest)).tail
              (mem_adj.mp hx'.1)
          · exact hstack x (List.mem_cons_of_mem _ hx)


lemma length_filter_le_of_imp {α} (p q : α → Bool) (l : List α)
    (himp : ∀ x, q x = true → p x = true) :
    (l.filter q).length ≤ (l.filter p).length := by
  induction l with
  | nil => simp
  | cons b l ih =>
    by_cases hq : q b = true
    · simp only [List.filter_cons, hq, himp b hq, if_pos]
      simpa using ih
    · rw [List.filter_cons, if_neg hq]
      by_cases hp : p b = true
      · rw [List.filter_cons, if_pos hp]
        simp only [List.length_cons]
        omega
      · rw [List.filter_cons, if_neg hp]
        exact ih

lemma length_filter_lt_of_strict {α} (p q : α → Bool) (l : List α)
    (himp : ∀ x, q x = true → p x = true) (a : α) (ha : a ∈ l)
    (hpa : p a = true) (hqa : q a = false) :
    (l.filter q).length < (l.filter p).length := by
  induction l with
  | nil => cases ha
  | cons b l ih =>
    rcases List.mem_cons.mp ha with rfl | ha
    · rw [List.filter_cons, List.filter_cons, if_pos hpa,
        if_neg (show ¬(q a = true) by simp [hqa])]
      have := length_filter_le_of_imp p q l himp
      simp only [List.length_cons]
      omega
    · by_cases hq : q b = true
      · rw [List.filter_cons, if_pos hq, List.filter_cons, if_pos (himp b hq)]
        simpa using ih ha
      · rw [List.filter_cons, if_neg hq]
        by_cases hp : p b = true
        · rw [List.filter_cons, if_pos hp]
          have := ih ha
          simp only [List.length_cons]
          omega
        · rw [List.filter_cons, if_neg hp]
          exact ih ha

lemma unvisitedCount_lt (t : NodeId) (edges : List EdgeDoc)
    (visited : List NodeId) (current : NodeId)
    (hrel : current ∈ t :: edges.map (fun e => e.target))
    (hnv : ¬ visited.contains current = true) :
    unvisitedCount t edges (current :: visited) <
      unvisitedCount t edges visited := by
  refine length_filter_lt_of_strict _ _ _ (fun x hx => ?_) current hrel
    (by simpa using hnv) (by simp)
  simp only [Bool.not_eq_true', List.contains_cons] at hx ⊢
  exact (Bool.or_eq_false_iff.mp hx).2

lemma reach_of_closed (edges : List EdgeDoc) (src : NodeId)
    (visited : List NodeId)
    (hgood : ∀ v ∈ visited, ∀ w, edgeStep edges v w → w ∈ visited)
    (hsrc : src ∉ visited) : ∀ u ∈ visited, ¬ Reach edges u src := by
  intro u hu hr
  unfold Reach at hr
  revert hu
  induction hr using Relation.ReflTransGen.head_induction_on with
  | refl => intro hu; exact hsrc hu
  | head hstep hrest ih => intro hu; exact ih (hgood _ hu _ hstep)

lemma dfsReaches_complete (edges : List EdgeDoc) (src t : NodeId) :
    ∀ (fuel : Nat) (visited stack : List NodeId),
      (∀ x ∈ stack, x ∈ t :: edges.map (fun e => e.target)) →
      (∀ v ∈ visited, ∀ w, edgeStep edges v w → w ∈ visited ∨ w ∈ stack) →
      src ∉ visited →
      unvisitedCount t edges visited * (edges.length + 2) + stack.length < fuel →
      (∃ u, (u ∈ visited ∨ u ∈ stack) ∧ Reach edges u src) →
      dfsReaches edges src fuel visited stack = true := by
  intro fuel
  induction fuel with
  | zero => intro visited stack _ _ _ hM _; omega
  | succ fuel ih =>
    intro visited stack hrel hgood hsrc hM hwit
    cases stack with
    | nil =>
      exfalso
      obtain ⟨u, hu, hr⟩ := hwit
      have hu' : u ∈ visited := by
        rcases hu with h | h
        · exact h
        · cases h
      refine reach_of_closed edges src visited (fun v hv w hw => ?_) hsrc u hu' hr
      rcases hgood v hv w hw with h | h
      · exact h
      · cases h
    | cons current rest =>
      rw [dfsReaches]
      by_cases hcs : current = src
      · rw [if_pos (by simpa using hcs)]
      · rw [if_neg (by simpa using hcs)]
        by_cases hcv : visited.contains current = true
        · rw [if_pos hcv]
          have hcur : current ∈ visited := by simpa using hcv
          refine ih visited rest (fun x hx => hrel x (List.mem_cons_of_mem _ hx))
            (fun v hv w hw => ?_) hsrc ?_ ?_
          · rcases hgood v hv w hw with h | h
            · exact Or.inl h
            · rcases List.mem_cons.mp h with rfl | h
              · exact Or.inl hcur
              · exact Or.inr h
          · simp only [List.length_cons] at hM
            generalize unvisitedCount t edges visited * (edges.length + 2) = A at hM ⊢
            omega
          · obtain ⟨u, hu, hr⟩ := hwit
            refine ⟨u, ?_, hr⟩
            rcases hu with h | h
            · exact Or.inl h
            · rcases List.mem_cons.mp h with rfl | h
              · exact Or.inl hcur
              · exact Or.inr h
        · rw [if_neg hcv]
          show dfsReaches edges src fuel (current :: visited)
            (((adj edges current).filter
              (fun m => !((current :: visited).contains m))).reverse ++ rest) = true
          have hcur : current ∉ visited := by simpa using hcv
          have hrelc : current ∈ t :: edges.map (fun e => e.target) :=
            hrel current (List.mem_cons_self current rest)
          refine ih (current :: visited) _ (fun x hx => ?_) (fun v hv w hw => ?_)
            ?_ ?_ ?_
          · rcases List.mem_append.mp hx with hx | hx
            · have hx' := (List.mem_filter.mp (List.mem_reverse.mp hx)).1
              obtain ⟨e, he, hes, het⟩ := mem_adj.mp hx'
              exact List.mem_cons_of_mem _ (List.mem_map.mpr ⟨e, he, het⟩)
            · exact hrel x (List.mem_cons_of_mem _ hx)
          · rcases List.mem_cons.mp hv with rfl | hv
            · by_cases hwv : w ∈ v :: visited
              · exact Or.inl hwv
              · refine Or.inr (List.mem_append.mpr (Or.inl (List.mem_reverse.mpr
                  (List.mem_filter.mpr ⟨mem_adj.mpr hw, ?_⟩))))
                simpa using hwv
            · rcases hgood v hv w hw with h | h
              · exact Or.inl (List.mem_cons_of_mem _ h)
              · rcases List.mem_cons.mp h with rfl | h
                · exact Or.inl (List.mem_cons_self _ _)
                · exact Or.inr (List.mem_append.mpr (Or.inr h))
          · intro h
            rcases List.mem_cons.mp h with h | h
            · exact hcs h.symm
            · exact hsrc h
          · have hlt : unvisitedCount t edges (current :: visited) <
                unvisitedCount t edges visited :=
              unvisitedCount_lt t edges visited current hrelc hcv
            have hmul : (unvisitedCount t edges (current :: visited) + 1) *
                (edges.length + 2) ≤
                unvisitedCount t edges visited * (edges.length + 2) :=
              Nat.mul_le_mul_right _ (Nat.succ_le_of_lt hlt)
            rw [Nat.add_mul, Nat.one_mul] at hmul
            have hplen : ((adj edges current).filter
                (fun m => !((current :: visited).contains m))).length ≤ edges.length := by
              calc ((adj edges current).filter
                  (fun m => !((current :: visited).contains m))).length
                  ≤ (adj edges current).length := List.length_filter_le _ _
                _ ≤ edges.length := by
                    rw [adj, List.length_map]
                    exact List.length_filter_le _ _
            rw [List.length_append, List.length_reverse]
            simp only [List.length_cons] at hM
            generalize unvisitedCount t edges (current :: visited) *
              (edges.length + 2) = A at hmul ⊢
            generalize unvisitedCount t edges visited * (edges.length + 2) = B at hmul hM
            omega
          · obtain ⟨u, hu, hr⟩ := hwit
            refine ⟨u, ?_, hr⟩
            rcases hu with h | h
            · exact Or.inl (List.mem_cons_of_mem _ h)
            · rcases List.mem_cons.mp h with rfl | h
              · exact Or.inl (List.mem_cons_self _ _)
              · exact Or.inr (List.mem_append.mpr (Or.inr h))

lemma dfsReaches_eq_reach (edges : List EdgeDoc) (src t : NodeId) :
    dfsReaches edges src (dfsFuel edges) [] [t] = true ↔ Reach edges t src := by
  constructor
  · intro h
    exact dfsReaches_sound edges src t _ [] [t]
      (fun x hx => by rcases List.mem_cons.mp hx with rfl | hx
                      · exact Relation.ReflTransGen.refl
                      · cases hx) h
  · intro h
    refine dfsReaches_complete edges src t _ [] [t]
      (fun x hx => by rcases List.mem_cons.mp hx with rfl | hx
                      · exact List.mem_cons_self _ _
                      · cases hx)
      (by intro v hv; cases hv) (by intro h; cases h) ?_ ⟨t, Or.inr (List.mem_cons_self _ _), h⟩
    have hcount : unvisitedCount t edges [] = edges.length + 1 := by
      simp [unvisitedCount]
    rw [hcount, dfsFuel]
    simp only [List.length_cons, List.length_nil]
    omega

lemma wouldCreateCycle_iff_reach (edges : List EdgeDoc) (src t : NodeId) :
    wouldCreateCycle edges src t = true ↔ Reach edges t src := by
  by_cases h : src = t
  · subst h
    rw [wouldCreateCycle, if_pos (by simp)]
    exact iff_of_true rfl Relation.ReflTransGen.refl
  · rw [wouldCreateCycle, if_neg (by simpa using h)]
    exact dfsReaches_eq_reach edges src t

/-! ### Acyclicity is preserved by the checked edge insertion -/

lemma edgeStep_append_single {edges : List EdgeDoc} {e : EdgeDoc} {a b : NodeId} :
    edgeStep (edges ++ [e]) a b ↔
      edgeStep edges a b ∨ (a = e.source ∧ b = e.target) := by
  simp only [edgeStep, List.mem_append, List.mem_singleton]
  constructor
  · rintro ⟨x, hx | rfl, hs, ht⟩
    · exact Or.inl ⟨x, hx, hs, ht⟩
    · exact Or.inr ⟨hs.symm, ht.symm⟩
  · rintro (⟨x, hx, hs, ht⟩ | ⟨rfl, rfl⟩)
    · exact ⟨x, Or.inl hx, hs, ht⟩
    · exact ⟨e, Or.inr rfl, rfl, rfl⟩

lemma reach_append_single {edges : List EdgeDoc} {e : EdgeDoc} {a b : NodeId}
    (h : Relation.ReflTransGen (edgeStep (edges ++ [e])) a b) :
    Reach edges a b ∨ (Reach edges a e.source ∧ Reach edges e.target b) := by
  induction h using Relation.ReflTransGen.head_induction_on with
  | refl => exact Or.inl Relation.ReflTransGen.refl
  | head hstep hrest ih =>
    rcases edgeStep_append_single.mp hstep with hold | ⟨rfl2, rfl3⟩
    · rcases ih with hr | ⟨hr1, hr2⟩
      · exact Or.inl (Relation.ReflTransGen.head hold hr)
      · exact Or.inr ⟨Relation.ReflTransGen.head hold hr1, hr2⟩
    · rcases ih with hr | ⟨hr1, hr2⟩
      · exact Or.inr ⟨rfl2 ▸ Relation.ReflTransGen.refl, rfl3 ▸ hr⟩
      · exact Or.inr ⟨rfl2 ▸ Relation.ReflTransGen.refl, hr2⟩

lemma acyclic_append_single {edges : List EdgeDoc} {e : EdgeDoc}
    (hacy : Acyclic edges) (hnr : ¬ Reach edges e.target e.source) :
    Acyclic (edges ++ [e]) := by
  intro n hcyc
  rcases Relation.TransGen.head'_iff.mp hcyc with ⟨c, hstep, hrest⟩
  rcases edgeStep_append_single.mp hstep with hold | ⟨hn, hc⟩
  · rcases reach_append_single hrest with hreach | ⟨hcs, htn⟩
    · exact hacy n (Relation.TransGen.head' hold hreach)
    · exact hnr (htn.trans (Relation.ReflTransGen.head hold hcs))
  · subst hn; subst hc
    rcases reach_append_single hrest with hreach | ⟨hr1, _⟩
    · exact hnr hreach
    · exact hnr hr1

lemma acyclic_of_subset {edges' edges : List EdgeDoc}
    (hsub : ∀ e ∈ edges', e ∈ edges) (hacy : Acyclic edges) :
    Acyclic edges' := by
  intro n hcyc
  refine hacy n (hcyc.mono fun a b hab => ?_)
  obtain ⟨e, he, hs, ht⟩ := hab
  exact ⟨e, hsub e he, hs, ht⟩

/-! ### Branch equations of the actions -/

lemma createEmptyGraph_dup {s : StoreState} {o : NodeId} {t : String} {g : GraphDoc}
    (h : s.graphs.find? (fun g => g.owner == o && g.title == t) = some g) :
    createEmptyGraph s o t = (.error .duplicateGraph, s) := by
  simp [createEmptyGraph, h]

lemma createEmptyGraph_ok {s : StoreState} {o : NodeId} {t : String}
    (h : s.graphs.find? (fun g => g.owner == o && g.title == t) = none) :
    createEmptyGraph s o t =
      (.ok s.nextId,
        { s with
            graphs := s.graphs ++ [{ _id := s.nextId, owner := o, title := t }],
            nextId := s.nextId + 1 }) := by
  simp [createEmptyGraph, h]

lemma addNode_noGraph {s : StoreState} {g : NodeId} {t : String} {e : NodeId}
    (h : s.graphs.find? (fun x => x._id == g) = none) :
    addNode s g t e = (.error .graphNotFound, s) := by
  simp [addNode, h]

lemma addNode_dup {s : StoreState} {g : NodeId} {t : String} {e : NodeId}
    {gd : GraphDoc} {nd : NodeDoc}
    (hg : s.graphs.find? (fun x => x._id == g) = some gd)
    (hn : s.nodes.find? (fun n => n.parent == g && n.title == t) = some nd) :
    addNode s g t e = (.error .duplicateNodeTitle, s) := by
  simp [addNode, hg, hn]

lemma addNode_ok {s : StoreState} {g : NodeId} {t : String} {e : NodeId}
    {gd : GraphDoc}
    (hg : s.graphs.find? (fun x => x._id == g) = some gd)
    (hn : s.nodes.find? (fun n => n.parent == g && n.title == t) = none) :
    addNode s g t e =
      (.ok s.nextId,
        { s with
            nodes := s.nodes ++
              [{ _id := s.nextId, parent := g, title := t, enrichment := e }],
            nextId := s.nextId + 1 }) := by
  simp [addNode, hg, hn]

lemma changeNodeTitle_missing {s : StoreState} {g nd : NodeId} {t : String}
    (h : s.nodes.find? (fun n => n._id == nd) = none) :
    changeNodeTitle s g nd t = (.error .nodeNotFoundOrNotInGraph, s) := by
  simp [changeNodeTitle, h]

lemma changeNodeTitle_wrongGraph {s : StoreState} {g nd : NodeId} {t : String}
    {doc : NodeDoc} (h : s.nodes.find? (fun n => n._id == nd) = some doc)
    (hp : doc.parent ≠ g) :
    changeNodeTitle s g nd t = (.error .nodeNotFoundOrNotInGraph, s) := by
  simp [changeNodeTitle, h, hp]

lemma changeNodeTitle_dup {s : StoreState} {g nd : NodeId} {t : String}
    {doc other : NodeDoc} (h : s.nodes.find? (fun n => n._id == nd) = some doc)
    (hp : doc.parent = g)
    (hdup : s.nodes.find? (fun n => n.parent == g && n.title == t) = some other) :
    changeNodeTitle s g nd t = (.error .duplicateNodeTitle, s) := by
  simp [changeNodeTitle, h, hp, hdup]

lemma changeNodeTitle_ok {s : StoreState} {g nd : NodeId} {t : String}
    {doc : NodeDoc} (h : s.nodes.find? (fun n => n._id == nd) = some doc)
    (hp : doc.parent = g)
    (hdup : s.nodes.find? (fun n => n.parent == g && n.title == t) = none) :
    changeNodeTitle s g nd t =
      (.ok (), { s with nodes := updateNodeTitleFirst s.nodes nd t }) := by
  simp [changeNodeTitle, h, hp, hdup]

lemma addEdge_noGraph {s : StoreState} {g a b e : NodeId}
    (h : s.graphs.find? (fun x => x._id == g) = none) :
    addEdge s g a b e = (.error .graphNotFound, s) := by
  simp [addEdge, h]

lemma addEdge_noSource {s : StoreState} {g a b e : NodeId} {gd : GraphDoc}
    (hg : s.graphs.find? (fun x => x._id == g) = some gd)
    (ha : s.nodes.find? (fun n => n._id == a) = none) :
    addEdge s g a b e = (.error .nodesNotFound, s) := by
  simp [addEdge, hg, ha]

lemma addEdge_noTarget {s : StoreState} {g a b e : NodeId} {gd : GraphDoc}
    {ad : NodeDoc}
    (hg : s.graphs.find? (fun x => x._id == g) = some gd)
    (ha : s.nodes.find? (fun n => n._id == a) = some ad)
    (hb : s.nodes.find? (fun n => n._id == b) = none) :
    addEdge s g a b e = (.error .nodesNotFound, s) := by
  simp [addEdge, hg, ha, hb]

lemma addEdge_crossGraph {s : StoreState} {g a b e : NodeId} {gd : GraphDoc}
    {ad bd : NodeDoc}
    (hg : s.graphs.find? (fun x => x._id == g) = some gd)
    (ha : s.nodes.find? (fun n => n._id == a) = some ad)
    (hb : s.nodes.find? (fun n => n._id == b) = some bd)
    (hp : ad.parent ≠ g ∨ bd.parent ≠ g) :
    addEdge s g a b e = (.error .crossGraphEdge, s) := by
  rcases hp with hp | hp <;> simp [addEdge, hg, ha, hb, hp]

lemma addEdge_dup {s : StoreState} {g a b e : NodeId} {gd : GraphDoc}
    {ad bd : NodeDoc} {ed : EdgeDoc}
    (hg : s.graphs.find? (fun x => x._id == g) = some gd)
    (ha : s.nodes.find? (fun n => n._id == a) = some ad)
    (hb : s.nodes.find? (fun n => n._id == b) = some bd)
    (hap : ad.parent = g) (hbp : bd.parent = g)
    (hdup : s.edges.find? (fun x => x.source == a && x.target == b) = some ed) :
    addEdge s g a b e = (.error .duplicateEdge, s) := by
  simp [addEdge, hg, ha, hb, hap, hbp, hdup]

lemma addEdge_cycle {s : StoreState} {g a b e : NodeId} {gd : GraphDoc}
    {ad bd : NodeDoc}
    (hg : s.graphs.find? (fun x => x._id == g) = some gd)
    (ha : s.nodes.find? (fun n => n._id == a) = some ad)
    (hb : s.nodes.find? (fun n => n._id == b) = some bd)
    (hap : ad.parent = g) (hbp : bd.parent = g)
    (hdup : s.edges.find? (fun x => x.source == a && x.target == b) = none)
    (hcyc : wouldCreateCycle s.edges a b = true) :
    addEdge s g a b e = (.error .cycleDetected, s) := by
  simp [addEdge, hg, ha, hb, hap, hbp, hdup, hcyc]

lemma addEdge_ok {s : StoreState} {g a b e : NodeId} {gd : GraphDoc}
    {ad bd : NodeDoc}
    (hg : s.graphs.find? (fun x => x._id == g) = some gd)
    (ha : s.nodes.find? (fun n => n._id == a) = some ad)
    (hb : s.nodes.find? (fun n => n._id == b) = some bd)
    (hap : ad.parent = g) (hbp : bd.parent = g)
    (hdup : s.edges.find? (fun x => x.source == a && x.target == b) = none)
    (hcyc : wouldCreateCycle s.edges a b = false) :
    addEdge s g a b e =
      (.ok s.nextId,
        { s with
            edges := s.edges ++
              [{ _id := s.nextId, source := a, target := b, enrichment := e }],
            nextId := s.nextId + 1 }) := by
  simp [addEdge, hg, ha, hb, hap, hbp, hdup, hcyc]

lemma removeNode_missing {s : StoreState} {nd : NodeId}
    (h : s.nodes.find? (fun n => n._id == nd) = none) :
    removeNode s nd = (.error .nodeNotFound, s) := by
  simp [removeNode, h]

lemma removeNode_ok {s : StoreState} {nd : NodeId} {doc : NodeDoc}
    (h : s.nodes.find? (fun n => n._id == nd) = some doc) :
    removeNode s nd =
      (.ok (),
        { s with
            edges := s.edges.filter (fun e => !(e.source == nd || e.target == nd)),
            nodes := deleteFirst (fun n => n._id == nd) s.nodes }) := by
  simp [removeNode, h]

lemma removeEdge_missing {s : StoreState} {e : NodeId}
    (h : s.edges.find? (fun x => x._id == e) = none) :
    removeEdge s e = (.error .edgeNotFound, s) := by
  simp [removeEdge, h]

lemma removeEdge_ok {s : StoreState} {e : NodeId} {doc : EdgeDoc}
    (h : s.edges.find? (fun x => x._id == e) = some doc) :
    removeEdge s e =
      (.ok (), { s with edges := deleteFirst (fun x => x._id == e) s.edges }) := by
  simp [removeEdge, h]

lemma deleteGraph_missing {s : StoreState} {g : NodeId}
    (h : s.graphs.find? (fun x => x._id == g) = none) :
    deleteGraph s g = (.error .graphNotFound, s) := by
  simp [deleteGraph, h]

lemma deleteGraph_ok {s : StoreState} {g : NodeId} {gd : GraphDoc}
    (h : s.graphs.find? (fun x => x._id == g) = some gd) :
    deleteGraph s g =
      (.ok (),
        { s with
            edges :=
              (if ((s.nodes.filter (fun n => n.parent == g)).map (fun n => n._id)).length > 0 then
                s.edges.filter
                  (fun e =>
                    !(((s.nodes.filter (fun n => n.parent == g)).map (fun n => n._id)).contains e.source ||
                      ((s.nodes.filter (fun n => n.parent == g)).map (fun n => n._id)).contains e.target))
              else s.edges),
            nodes := s.nodes.filter (fun n => !(n.parent == g)),
            graphs := deleteFirst (fun x => x._id == g) s.graphs }) := by
  simp [deleteGraph, h]

lemma accessEdge_found {s : StoreState} {g a b : NodeId} {gd : GraphDoc}
    {ed : EdgeDoc}
    (hg : s.graphs.find? (fun x => x._id == g) = some gd)
    (he : s.edges.find? (fun x => x.source == a && x.target == b) = some ed) :
    accessEdge s g a b = .ok ed._id := by
  simp [accessEdge, hg, he]

/-! ### Structural helpers for first-match delete and update -/

lemma deleteFirst_sublist (p : α → Bool) (l : List α) :
    (deleteFirst p l).Sublist l := by
  induction l with
  | nil => simp [deleteFirst]
  | cons a l ih =>
    rw [deleteFirst]
    by_cases h : p a = true
    · rw [if_pos h]
      exact (List.sublist_cons_self a l)
    · rw [if_neg h]
      exact ih.cons₂ a

lemma mem_of_mem_deleteFirst {p : α → Bool} {l : List α} {x : α}
    (h : x ∈ deleteFirst p l) : x ∈ l :=
  (deleteFirst_sublist p l).mem h

lemma mem_deleteFirst_of_mem {p : α → Bool} {l : List α} {x : α}
    (hx : x ∈ l) (hpx : p x = false) : x ∈ deleteFirst p l := by
  induction l with
  | nil => cases hx
  | cons a l ih =>
    rw [deleteFirst]
    rcases List.mem_cons.mp hx with rfl | hx
    · rw [if_neg (by simp [hpx])]
      exact List.mem_cons_self _ _
    · by_cases h : p a = true
      · rw [if_pos h]; exact hx
      · rw [if_neg h]; exact List.mem_cons_of_mem _ (ih hx)

lemma deleteFirst_append {p : α → Bool} {l₁ l₂ : List α} {a : α}
    (h₁ : ∀ x ∈ l₁, p x = false) (h₂ : p a = true) :
    deleteFirst p (l₁ ++ a :: l₂) = l₁ ++ l₂ := by
  induction l₁ with
  | nil => simp [deleteFirst, h₂]
  | cons b l₁ ih =>
    rw [List.cons_append, deleteFirst,
      if_neg (by simp [h₁ b (List.mem_cons_self _ _)]), List.cons_append]
    rw [ih (fun x hx => h₁ x (List.mem_cons_of_mem _ hx))]

lemma not_mem_deleteFirst_of_unique {p : α → Bool} {l₁ l₂ : List α} {a : α} {x : α}
    (h₁ : ∀ x ∈ l₁, p x = false) (h₂ : p a = true)
    (h₃ : ∀ y ∈ l₁ ++ l₂, p y = false) (hx : x ∈ deleteFirst p (l₁ ++ a :: l₂)) :
    p x = false := by
  rw [deleteFirst_append h₁ h₂] at hx
  exact h₃ x hx

lemma updateNodeTitleFirst_append {l₁ l₂ : List NodeDoc} {nd : NodeDoc}
    {node : NodeId} {t : String}
    (h₁ : ∀ x ∈ l₁, (x._id == node) = false) (h₂ : (nd._id == node) = true) :
    updateNodeTitleFirst (l₁ ++ nd :: l₂) node t =
      l₁ ++ { nd with title := t } :: l₂ := by
  induction l₁ with
  | nil => simp [updateNodeTitleFirst, h₂]
  | cons b l₁ ih =>
    rw [List.cons_append, updateNodeTitleFirst]
    rw [if_neg (by simp [h₁ b (List.mem_cons_self _ _)]), List.cons_append]
    rw [ih (fun x hx => h₁ x (List.mem_cons_of_mem _ hx))]


lemma storeInv_createEmptyGraph {s : StoreState} (h : StoreInv s) (o : NodeId)
    (t : String) : StoreInv (createEmptyGraph s o t).2 := by
  cases hf : s.graphs.find? (fun g => g.owner == o && g.title == t) with
  | some g => rw [createEmptyGraph_dup hf]; exact h
  | none =>
    rw [createEmptyGraph_ok hf]
    refine ⟨h.titles, h.acyclic, fun n hn => ?_⟩
    obtain ⟨g, hg, hid⟩ := h.parents n hn
    exact ⟨g, List.mem_append.mpr (Or.inl hg), hid⟩

lemma storeInv_addNode {s : StoreState} (h : StoreInv s) (g : NodeId)
    (t : String) (e : NodeId) : StoreInv (addNode s g t e).2 := by
  cases hg : s.graphs.find? (fun x => x._id == g) with
  | none => rw [addNode_noGraph hg]; exact h
  | some gd =>
    cases hn : s.nodes.find? (fun n => n.parent == g && n.title == t) with
    | some nd => rw [addNode_dup hg hn]; exact h
    | none =>
      rw [addNode_ok hg hn]
      have hfree : ∀ x ∈ s.nodes, ¬(x.parent = g ∧ x.title = t) := by
        intro x hx hxc
        have := List.find?_eq_none.mp hn x hx
        simp [hxc.1, hxc.2] at this
      refine ⟨?_, h.acyclic, ?_⟩
      · refine List.pairwise_append.mpr ⟨h.titles, List.pairwise_singleton _ _,
          fun a ha b hb => ?_⟩
        rw [List.mem_singleton] at hb
        subst hb
        intro hpar
        simp only at hpar
        intro htit
        simp only at htit
        exact hfree a ha ⟨hpar, htit⟩
      · intro n hn'
        rcases List.mem_append.mp hn' with hn' | hn'
        · obtain ⟨gr, hgr, hid⟩ := h.parents n hn'
          exact ⟨gr, hgr, hid⟩
        · rw [List.mem_singleton] at hn'
          subst hn'
          refine ⟨gd, List.mem_of_find?_eq_some hg, ?_⟩
          simpa using List.find?_some hg

lemma storeInv_changeNodeTitle {s : StoreState} (h : StoreInv s)
    (g nd : NodeId) (t : String) : StoreInv (changeNodeTitle s g nd t).2 := by
  cases hf : s.nodes.find? (fun n => n._id == nd) with
  | none => rw [changeNodeTitle_missing hf]; exact h
  | some doc =>
    by_cases hp : doc.parent = g
    · cases hdup : s.nodes.find? (fun n => n.parent == g && n.title == t) with
      | some other => rw [changeNodeTitle_dup hf hp hdup]; exact h
      | none =>
        rw [changeNodeTitle_ok hf hp hdup]
        have hfree : ∀ x ∈ s.nodes, ¬(x.parent = g ∧ x.title = t) := by
          intro x hx hxc
          have := List.find?_eq_none.mp hdup x hx
          simp [hxc.1, hxc.2] at this
        obtain ⟨hpdoc, l₁, l₂, hsplit, hl₁⟩ := List.find?_eq_some.mp hf
        have hl₁' : ∀ x ∈ l₁, (x._id == nd) = false := by
          intro x hx
          simpa using hl₁ x hx
        have hupd := @updateNodeTitleFirst_append l₁ l₂ doc nd t hl₁' hpdoc
        rw [hsplit] at hfree ⊢
        rw [hupd]
        have hold : TitlesUnique s := h.titles
        rw [TitlesUnique, hsplit] at hold
        obtain ⟨hP1, hP2, hcross⟩ := List.pairwise_append.mp hold
        obtain ⟨hdocl₂, hPl₂⟩ := List.pairwise_cons.mp hP2
        constructor
        · refine List.pairwise_append.mpr ⟨hP1, List.pairwise_cons.mpr ⟨?_, hPl₂⟩,
            fun a ha b hb => ?_⟩
          · intro b hb hpar htit
            refine hfree b (by simp [hb]) ⟨?_, ?_⟩
            · rw [← hpar]; simpa using hp
            · rw [← htit]
          · rcases List.mem_cons.mp hb with rfl | hb
            · intro hpar htit
              refine hfree a (by simp [ha]) ⟨?_, ?_⟩
              · rw [hpar]; simpa using hp
              · rw [htit]
            · exact hcross a ha b (List.mem_cons_of_mem _ hb)
        · exact h.acyclic
        · intro n hn
          rcases List.mem_append.mp hn with hn | hn
          · exact h.parents n (by rw [hsplit]; exact List.mem_append.mpr (Or.inl hn))
          · rcases List.mem_cons.mp hn with rfl | hn
            · obtain ⟨gr, hgr, hid⟩ := h.parents doc
                (by rw [hsplit]; exact List.mem_append.mpr (Or.inr (List.mem_cons_self _ _)))
              exact ⟨gr, hgr, hid⟩
            · exact h.parents n
                (by rw [hsplit]; exact List.mem_append.mpr (Or.inr (List.mem_cons_of_mem _ hn)))
    · rw [changeNodeTitle_wrongGraph hf hp]; exact h

lemma storeInv_addEdge {s : StoreState} (h : StoreInv s)
    (g a b e : NodeId) : StoreInv (addEdge s g a b e).2 := by
  cases hg : s.graphs.find? (fun x => x._id == g) with
  | none => rw [addEdge_noGraph hg]; exact h
  | some gd =>
    cases ha : s.nodes.find? (fun n => n._id == a) with
    | none => rw [addEdge_noSource hg ha]; exact h
    | some ad =>
      cases hb : s.nodes.find? (fun n => n._id == b) with
      | none => rw [addEdge_noTarget hg ha hb]; exact h
      | some bd =>
        by_cases hap : ad.parent = g
        · by_cases hbp : bd.parent = g
          · cases hdup : s.edges.find? (fun x => x.source == a && x.target == b) with
            | some ed => rw [addEdge_dup hg ha hb hap hbp hdup]; exact h
            | none =>
              cases hcyc : wouldCreateCycle s.edges a b with
              | true => rw [addEdge_cycle hg ha hb hap hbp hdup hcyc]; exact h
              | false =>
                rw [addEdge_ok hg ha hb hap hbp hdup hcyc]
                refine ⟨h.titles, ?_, h.parents⟩
                refine acyclic_append_single h.acyclic ?_
                intro hreach
                have := (wouldCreateCycle_iff_reach s.edges a b).mpr hreach
                rw [hcyc] at this
                cases this
          · rw [addEdge_crossGraph hg ha hb (Or.inr hbp)]; exact h
        · rw [addEdge_crossGraph hg ha hb (Or.inl hap)]; exact h

lemma storeInv_removeNode {s : StoreState} (h : StoreInv s) (nd : NodeId) :
    StoreInv (removeNode s nd).2 := by
  cases hf : s.nodes.find? (fun n => n._id == nd) with
  | none => rw [removeNode_missing hf]; exact h
  | some doc =>
    rw [removeNode_ok hf]
    refine ⟨List.Pairwise.sublist (deleteFirst_sublist _ _) h.titles, ?_, ?_⟩
    · exact acyclic_of_subset (fun x hx => (List.mem_filter.mp hx).1) h.acyclic
    · intro n hn
      exact h.parents n (mem_of_mem_deleteFirst hn)

lemma storeInv_removeEdge {s : StoreState} (h : StoreInv s) (e : NodeId) :
    StoreInv (removeEdge s e).2 := by
  cases hf : s.edges.find? (fun x => x._id == e) with
  | none => rw [removeEdge_missing hf]; exact h
  | some doc =>
    rw [removeEdge_ok hf]
    exact ⟨h.titles, acyclic_of_subset (fun x hx => mem_of_mem_deleteFirst hx)
      h.acyclic, h.parents⟩

lemma storeInv_deleteGraph {s : StoreState} (h : StoreInv s) (g : NodeId) :
    StoreInv (deleteGraph s g).2 := by
  cases hf : s.graphs.find? (fun x => x._id == g) with
  | none => rw [deleteGraph_missing hf]; exact h
  | some gd =>
    rw [deleteGraph_ok hf]
    refine ⟨List.Pairwise.sublist (List.filter_sublist _) h.titles, ?_, ?_⟩
    · by_cases hc : ((s.nodes.filter (fun n => n.parent == g)).map
          (fun n => n._id)).length > 0
      · rw [if_pos hc]
        exact acyclic_of_subset (fun x hx => (List.mem_filter.mp hx).1) h.acyclic
      · rw [if_neg hc]
        exact h.acyclic
    · intro n hn
      have hmem := List.mem_filter.mp hn
      obtain ⟨gr, hgr, hid⟩ := h.parents n hmem.1
      refine ⟨gr, mem_deleteFirst_of_mem hgr ?_, hid⟩
      have : n.parent ≠ g := by simpa using hmem.2
      simp [hid, this]

lemma storeInv_applyOp {s : StoreState} (h : StoreInv s) (op : GraphOp) :
    StoreInv (applyOp s op) := by
  cases op with
  | createEmptyGraph o t => exact storeInv_createEmptyGraph h o t
  | addNode g t e => exact storeInv_addNode h g t e
  | changeNodeTitle g n t => exact storeInv_changeNodeTitle h g n t
  | addEdge g a b e => exact storeInv_addEdge h g a b e
  | removeNode n => exact storeInv_removeNode h n
  | removeEdge e => exact storeInv_removeEdge h e
  | deleteGraph g => exact storeInv_deleteGraph h g

lemma storeInv_empty : StoreInv emptyStore := by
  refine ⟨List.Pairwise.nil, fun n hcyc => ?_, fun n hn => absurd hn (by simp [emptyStore])⟩
  rcases Relation.TransGen.head'_iff.mp hcyc with ⟨c, hstep, _⟩
  obtain ⟨e, he, _⟩ := hstep
  simp [emptyStore] at he

lemma storeInv_reachable {s : StoreState} (h : ReachableState s) : StoreInv s := by
  induction h with
  | init => exact storeInv_empty
  | step s op _ ih => exact storeInv_applyOp ih op


lemma reachable_demoStore : ReachableState demoStore :=
  .step _ (.addEdge 0 2 3 9)
    (.step _ (.addEdge 0 1 2 9)
      (.step _ (.addNode 0 "C" 7)
        (.step _ (.addNode 0 "B" 7)
          (.step _ (.addNode 0 "A" 7)
            (.step _ (.createEmptyGraph 100 "Deps") .init)))))

lemma reachable_demoStore2 : ReachableState demoStore2 :=
  .step _ (.addEdge 6 7 8 9)
    (.step _ (.addNode 6 "S" 7)
      (.step _ (.addNode 6 "R" 7)
        (.step _ (.createEmptyGraph 100 "Other") reachable_demoStore)))

/-! ### The claims -/

/-- C1: in every store state reachable from the empty store by any sequence
of GraphStore operations, the directed graph formed by the Edge collection
(each Edge viewed as source → target over Node identities) contains no
directed cycle and no self-loop; in particular this holds after every
successful addEdge call. -/
theorem C1_acyclicity_invariant (s : StoreState) (h : ReachableState s) :
    Acyclic s.edges ∧ ∀ e ∈ s.edges, e.source ≠ e.target := by
  have hinv := storeInv_reachable h
  refine ⟨hinv.acyclic, fun e he heq => ?_⟩
  exact hinv.acyclic e.source (Relation.TransGen.single ⟨e, he, rfl, heq.symm⟩)

/-- Witness for C1 at the scenario store reached by six operations. -/
theorem C1_acyclicity_invariant_witness :
    Acyclic demoStore.edges ∧ ∀ e ∈ demoStore.edges, e.source ≠ e.target :=
  C1_acyclicity_invariant demoStore reachable_demoStore

/-- C2: with the graph existing, both endpoints existing with parent graph
and no duplicate `(source, target)` edge, `addEdge` reports `CycleDetected`
iff the target can reach the source via zero or more existing edges; when it
cannot, exactly one new Edge (source, target, enrichment) is inserted and
its fresh identifier returned. -/
theorem C2_cycle_detection_correct (s : StoreState)
    (graph src tgt enr : NodeId) (gd : GraphDoc) (sd td : NodeDoc)
    (hg : s.graphs.find? (fun x => x._id == graph) = some gd)
    (hs : s.nodes.find? (fun n => n._id == src) = some sd)
    (ht : s.nodes.find? (fun n => n._id == tgt) = some td)
    (hsp : sd.parent = graph) (htp : td.parent = graph)
    (hdup : s.edges.find? (fun e => e.source == src && e.target == tgt) = none) :
    ((addEdge s graph src tgt enr).1 = .error .cycleDetected ↔
      Reach s.edges tgt src) ∧
    (¬ Reach s.edges tgt src →
      addEdge s graph src tgt enr =
        (.ok s.nextId,
          { s with
              edges := s.edges ++
                [{ _id := s.nextId, source := src, target := tgt,
                   enrichment := enr }],
              nextId := s.nextId + 1 })) := by
  cases hcyc : wouldCreateCycle s.edges src tgt with
  | true =>
    have hreach := (wouldCreateCycle_iff_reach _ _ _).mp hcyc
    rw [addEdge_cycle hg hs ht hsp htp hdup hcyc]
    exact ⟨iff_of_true rfl hreach, fun hn => absurd hreach hn⟩
  | false =>
    have hnreach : ¬ Reach s.edges tgt src := fun hr => by
      have := (wouldCreateCycle_iff_reach s.edges src tgt).mpr hr
      rw [hcyc] at this
      cases this
    rw [addEdge_ok hg hs ht hsp htp hdup hcyc]
    exact ⟨iff_of_false (by simp) hnreach, fun _ => rfl⟩

/-- Witness for C2: inserting 3→1 into the scenario store, where node 1
reaches node 3 through 1→2→3. -/
theorem C2_cycle_detection_correct_witness :
    (((addEdge demoStore 0 3 1 9).1 = .error .cycleDetected ↔
        Reach demoStore.edges 1 3) ∧
      (¬ Reach demoStore.edges 1 3 →
        addEdge demoStore 0 3 1 9 =
          (.ok demoStore.nextId,
            { demoStore with
                edges := demoStore.edges ++
                  [{ _id := demoStore.nextId, source := 3, target := 1,
                     enrichment := 9 }],
                nextId := demoStore.nextId + 1 }))) :=
  C2_cycle_detection_correct demoStore 0 3 1 9
    ⟨0, 100, "Deps"⟩ ⟨3, 0, "C", 7⟩ ⟨1, 0, "A", 7⟩
    (by decide) (by decide) (by decide) rfl rfl (by decide)

/-- C3: the preconditions of `addEdge` are checked in a fixed order and the
first failing check determines the error: missing graph, then missing
endpoint node, then an endpoint outside the graph, then a duplicate ordered
pair, then a would-be cycle (including source = target); the edge is created
only when every check passes. -/
theorem C3_addEdge_error_precedence (s : StoreState) (g a b e : NodeId) :
    (s.graphs.find? (fun x => x._id == g) = none →
      (addEdge s g a b e).1 = .error .graphNotFound) ∧
    (∀ gd, s.graphs.find? (fun x => x._id == g) = some gd →
      (s.nodes.find? (fun n => n._id == a) = none ∨
        s.nodes.find? (fun n => n._id == b) = none) →
      (addEdge s g a b e).1 = .error .nodesNotFound) ∧
    (∀ gd ad bd, s.graphs.find? (fun x => x._id == g) = some gd →
      s.nodes.find? (fun n => n._id == a) = some ad →
      s.nodes.find? (fun n => n._id == b) = some bd →
      (ad.parent ≠ g ∨ bd.parent ≠ g) →
      (addEdge s g a b e).1 = .error .crossGraphEdge) ∧
    (∀ gd ad bd ed, s.graphs.find? (fun x => x._id == g) = some gd →
      s.nodes.find? (fun n => n._id == a) = some ad →
      s.nodes.find? (fun n => n._id == b) = some bd →
      ad.parent = g → bd.parent = g →
      s.edges.find? (fun x => x.source == a && x.target == b) = some ed →
      (addEdge s g a b e).1 = .error .duplicateEdge) ∧
    (∀ gd ad bd, s.graphs.find? (fun x => x._id == g) = some gd →
      s.nodes.find? (fun n => n._id == a) = some ad →
      s.nodes.find? (fun n => n._id == b) = some bd →
      ad.parent = g → bd.parent = g →
      s.edges.find? (fun x => x.source == a && x.target == b) = none →
      wouldCreateCycle s.edges a b = true →
      (addEdge s g a b e).1 = .error .cycleDetected) ∧
    (∀ gd ad bd, s.graphs.find? (fun x => x._id == g) = some gd →
      s.nodes.find? (fun n => n._id == a) = some ad →
      s.nodes.find? (fun n => n._id == b) = some bd →
      ad.parent = g → bd.parent = g →
      s.edges.find? (fun x => x.source == a && x.target == b) = none →
      wouldCreateCycle s.edges a b = false →
      addEdge s g a b e =
        (.ok s.nextId,
          { s with
              edges := s.edges ++
                [{ _id := s.nextId, source := a, target := b, enrichment := e }],
              nextId := s.nextId + 1 })) := by
  refine ⟨fun h => ?_, fun gd hg hn => ?_, fun gd ad bd hg ha hb hp => ?_,
    fun gd ad bd ed hg ha hb hap hbp hd => ?_,
    fun gd ad bd hg ha hb hap hbp hd hc => ?_,
    fun gd ad bd hg ha hb hap hbp hd hc => ?_⟩
  · rw [addEdge_noGraph h]
  · rcases hn with hn | hn
    · rw [addEdge_noSource hg hn]
    · cases ha : s.nodes.find? (fun n => n._id == a) with
      | none => rw [addEdge_noSource hg ha]
      | some ad => rw [addEdge_noTarget hg ha hn]
  · rw [addEdge_crossGraph hg ha hb hp]
  · rw [addEdge_dup hg ha hb hap hbp hd]
  · rw [addEdge_cycle hg ha hb hap hbp hd hc]
  · rw [addEdge_ok hg ha hb hap hbp hd hc]

/-- Witness for C3: the duplicate-pair branch on the scenario store, where
edge 1→2 already exists. -/
theorem C3_addEdge_error_precedence_witness :
    (addEdge demoStore 0 1 2 9).1 = .error .duplicateEdge :=
  (C3_addEdge_error_precedence demoStore 0 1 2 9).2.2.2.1
    ⟨0, 100, "Deps"⟩ ⟨1, 0, "A", 7⟩ ⟨2, 0, "B", 7⟩
    ⟨4, 1, 2, 9⟩ (by decide) (by decide) (by decide) rfl rfl (by decide)

/-- C4: whenever `createEmptyGraph`, `addNode` or `addEdge` returns an
error, the store state (graphs, nodes and edges collections) is exactly the
state before the call: a failing call inserts, updates and deletes
nothing. -/
theorem C4_failed_calls_leave_store_unchanged (s : StoreState) :
    (∀ o t err, (createEmptyGraph s o t).1 = .error err →
      (createEmptyGraph s o t).2 = s) ∧
    (∀ g t e err, (addNode s g t e).1 = .error err → (addNode s g t e).2 = s) ∧
    (∀ g a b e err, (addEdge s g a b e).1 = .error err →
      (addEdge s g a b e).2 = s) := by
  refine ⟨fun o t err herr => ?_, fun g t e err herr => ?_,
    fun g a b e err herr => ?_⟩
  · cases hf : s.graphs.find? (fun x => x.owner == o && x.title == t) with
    | some gd => rw [createEmptyGraph_dup hf]
    | none => rw [createEmptyGraph_ok hf] at herr; cases herr
  · cases hg : s.graphs.find? (fun x => x._id == g) with
    | none => rw [addNode_noGraph hg]
    | some gd =>
      cases hn : s.nodes.find? (fun n => n.parent == g && n.title == t) with
      | some nd => rw [addNode_dup hg hn]
      | none => rw [addNode_ok hg hn] at herr; cases herr
  · cases hg : s.graphs.find? (fun x => x._id == g) with
    | none => rw [addEdge_noGraph hg]
    | some gd =>
      cases ha : s.nodes.find? (fun n => n._id == a) with
      | none => rw [addEdge_noSource hg ha]
      | some ad =>
        cases hb : s.nodes.find? (fun n => n._id == b) with
        | none => rw [addEdge_noTarget hg ha hb]
        | some bd =>
          by_cases hap : ad.parent = g
          · by_cases hbp : bd.parent = g
            · cases hd : s.edges.find? (fun x => x.source == a && x.target == b) with
              | some ed => rw [addEdge_dup hg ha hb hap hbp hd]
              | none =>
                cases hc : wouldCreateCycle s.edges a b with
                | true => rw [addEdge_cycle hg ha hb hap hbp hd hc]
                | false => rw [addEdge_ok hg ha hb hap hbp hd hc] at herr; cases herr
            · rw [addEdge_crossGraph hg ha hb (Or.inr hbp)]
          · rw [addEdge_crossGraph hg ha hb (Or.inl hap)]

/-- Witness for C4: a failing duplicate `createEmptyGraph` call on the
scenario store leaves it unchanged. -/
theorem C4_failed_calls_leave_store_unchanged_witness :
    (createEmptyGraph demoStore 100 "Deps").2 = demoStore :=
  (C4_failed_calls_leave_store_unchanged demoStore).1 100 "Deps"
    .duplicateGraph (by decide)

/-- C5: in every reachable store state no two distinct nodes of one graph
share a title; the predicate is preserved by every operation; `addNode`
fails with DuplicateTitle on a `(graph, title)` collision and
`changeNodeTitle` fails with DuplicateTitle when another node of the graph
already holds the new title. -/
theorem C5_title_uniqueness (s : StoreState) (h : ReachableState s) :
    TitlesUnique s ∧
    (∀ op, TitlesUnique (applyOp s op)) ∧
    (∀ g t e gd nd, s.graphs.find? (fun x => x._id == g) = some gd →
      nd ∈ s.nodes → nd.parent = g → nd.title = t →
      (addNode s g t e).1 = .error .duplicateNodeTitle) ∧
    (∀ g node t doc other, s.nodes.find? (fun n => n._id == node) = some doc →
      doc.parent = g → other ∈ s.nodes → other._id ≠ node →
      other.parent = g → other.title = t →
      (changeNodeTitle s g node t).1 = .error .duplicateNodeTitle) := by
  have hinv := storeInv_reachable h
  refine ⟨hinv.titles, fun op => (storeInv_applyOp hinv op).titles,
    fun g t e gd nd hg hnd hp ht => ?_, fun g node t doc other hf hp hmem hne hop hot => ?_⟩
  · cases hn : s.nodes.find? (fun n => n.parent == g && n.title == t) with
    | none =>
      exfalso
      have := List.find?_eq_none.mp hn nd hnd
      simp [hp, ht] at this
    | some nd' => rw [addNode_dup hg hn]
  · cases hdup : s.nodes.find? (fun n => n.parent == g && n.title == t) with
    | none =>
      exfalso
      have := List.find?_eq_none.mp hdup other hmem
      simp [hop, hot] at this
    | some x => rw [changeNodeTitle_dup hf hp hdup]

/-- Witness for C5: title uniqueness at the scenario store. -/
theorem C5_title_uniqueness_witness : TitlesUnique demoStore :=
  (C5_title_uniqueness demoStore reachable_demoStore).1

/-- C6: removing an existing node succeeds and afterwards no edge
references it and no node with its identity remains; removing a missing
node reports NotFound and leaves the store unchanged.  (The pairwise
distinctness of node ids is the `_id` unique-index guarantee of the
backing store.) -/
theorem C6_removeNode_cascade (s : StoreState) (node : NodeId)
    (hnodup : (s.nodes.map (fun n => n._id)).Nodup) :
    ((∃ nd ∈ s.nodes, nd._id = node) →
      (removeNode s node).1 = .ok () ∧
      (∀ e ∈ (removeNode s node).2.edges, e.source ≠ node ∧ e.target ≠ node) ∧
      (∀ nd ∈ (removeNode s node).2.nodes, nd._id ≠ node)) ∧
    ((∀ nd ∈ s.nodes, nd._id ≠ node) →
      removeNode s node = (.error .nodeNotFound, s)) := by
  constructor
  · rintro ⟨nd0, hnd0, hid0⟩
    cases hf : s.nodes.find? (fun n => n._id == node) with
    | none =>
      exfalso
      have := List.find?_eq_none.mp hf nd0 hnd0
      simp [hid0] at this
    | some doc =>
      rw [removeNode_ok hf]
      refine ⟨rfl, fun e he => ?_, fun nd hnd => ?_⟩
      · have hp := (List.mem_filter.mp he).2
        constructor
        · intro hq; rw [hq] at hp; simp at hp
        · intro hq; rw [hq] at hp; simp at hp
      · obtain ⟨hdoc, l₁, l₂, hsplit, hl₁⟩ := List.find?_eq_some.mp hf
        have hl₁' : ∀ x ∈ l₁, (x._id == node) = false := fun x hx => by
          simpa using hl₁ x hx
        have hnd' : nd ∈ l₁ ++ l₂ := by
          have : deleteFirst (fun n => n._id == node) s.nodes = l₁ ++ l₂ := by
            rw [hsplit]
            exact deleteFirst_append hl₁' hdoc
          rw [← this]
          exact hnd
        have hdocid : doc._id = node := by simpa using hdoc
        rcases List.mem_append.mp hnd' with hmem | hmem
        · simpa using hl₁' nd hmem
        · rw [hsplit] at hnodup
          simp only [List.map_append, List.map_cons] at hnodup
          have h2 := (List.nodup_append.mp hnodup).2.1
          have hnotin := (List.nodup_cons.mp h2).1
          intro heq
          have hmm : nd._id ∈ l₂.map (fun n => n._id) :=
            List.mem_map.mpr ⟨nd, hmem, rfl⟩
          rw [heq, ← hdocid] at hmm
          exact hnotin hmm
  · intro hall
    have hf : s.nodes.find? (fun n => n._id == node) = none :=
      List.find?_eq_none.mpr (fun x hx => by simpa using hall x hx)
    exact removeNode_missing hf

/-- Witness for C6: removing node 3 from the scenario store. -/
theorem C6_removeNode_cascade_witness :
    ((∃ nd ∈ demoStore.nodes, nd._id = 3) →
      (removeNode demoStore 3).1 = .ok () ∧
      (∀ e ∈ (removeNode demoStore 3).2.edges, e.source ≠ 3 ∧ e.target ≠ 3) ∧
      (∀ nd ∈ (removeNode demoStore 3).2.nodes, nd._id ≠ 3)) ∧
    ((∀ nd ∈ demoStore.nodes, nd._id ≠ 3) →
      removeNode demoStore 3 = (.error .nodeNotFound, demoStore)) :=
  C6_removeNode_cascade demoStore 3 (by decide)


lemma contains_eq_false_iff (l : List NodeId) (x : NodeId) :
    (l.contains x = false) ↔ x ∉ l := by
  constructor
  · intro h hm
    have hc : l.contains x = true := by simpa using hm
    rw [h] at hc
    cases hc
  · intro h
    cases hc : l.contains x
    · rfl
    · exact absurd (by simpa using hc) h

/-- C7: deleting an existing graph succeeds; afterwards no node has it as
parent, no edge touches a former child, the graph record is gone, and every
other graph, every node of other graphs and every edge avoiding the former
children is exactly as before (stated as filter equations on the
collections plus the unchanged fresh-id counter; pairwise distinctness of
graph ids is the `_id` unique-index guarantee of the backing store). -/
theorem C7_deleteGraph_cascade_frame (s : StoreState) (g : NodeId)
    (hgnodup : (s.graphs.map (fun x => x._id)).Nodup)
    (hex : ∃ gd ∈ s.graphs, gd._id = g) :
    (deleteGraph s g).1 = .ok () ∧
    (deleteGraph s g).2.nodes = s.nodes.filter (fun n => !(n.parent == g)) ∧
    (deleteGraph s g).2.graphs = s.graphs.filter (fun x => !(x._id == g)) ∧
    (deleteGraph s g).2.edges = s.edges.filter (fun e =>
      !(((s.nodes.filter (fun n => n.parent == g)).map (fun n => n._id)).contains e.source ||
        ((s.nodes.filter (fun n => n.parent == g)).map (fun n => n._id)).contains e.target)) ∧
    (∀ n ∈ (deleteGraph s g).2.nodes, n.parent ≠ g) ∧
    (∀ gd ∈ (deleteGraph s g).2.graphs, gd._id ≠ g) ∧
    (∀ e ∈ (deleteGraph s g).2.edges, ∀ n ∈ s.nodes, n.parent = g →
      e.source ≠ n._id ∧ e.target ≠ n._id) ∧
    (∀ e ∈ s.edges,
      (∀ n ∈ s.nodes, n.parent = g → e.source ≠ n._id ∧ e.target ≠ n._id) →
      e ∈ (deleteGraph s g).2.edges) ∧
    (deleteGraph s g).2.nextId = s.nextId := by
  obtain ⟨gd0, hgd0, hgid0⟩ := hex
  cases hf : s.graphs.find? (fun x => x._id == g) with
  | none =>
    exfalso
    have := List.find?_eq_none.mp hf gd0 hgd0
    simp [hgid0] at this
  | some gd =>
    have h0 : (deleteGraph s g).1 = .ok () := by rw [deleteGraph_ok hf]
    have h1 : (deleteGraph s g).2.nodes =
        s.nodes.filter (fun n => !(n.parent == g)) := by rw [deleteGraph_ok hf]
    have h4 : (deleteGraph s g).2.nextId = s.nextId := by rw [deleteGraph_ok hf]
    have h3 : (deleteGraph s g).2.graphs =
        s.graphs.filter (fun x => !(x._id == g)) := by
      rw [deleteGraph_ok hf]
      show deleteFirst (fun x => x._id == g) s.graphs = _
      obtain ⟨hp, l₁, l₂, hsplit, hl₁⟩ := List.find?_eq_some.mp hf
      have hl₁' : ∀ x ∈ l₁, (x._id == g) = false := fun x hx => by
        simpa using hl₁ x hx
      have hgdid : gd._id = g := by simpa using hp
      have hl₂' : ∀ x ∈ l₂, (x._id == g) = false := by
        intro x hx
        rw [hsplit] at hgnodup
        simp only [List.map_append, List.map_cons] at hgnodup
        have h2 := (List.nodup_append.mp hgnodup).2.1
        have hnotin := (List.nodup_cons.mp h2).1
        simp only [beq_eq_false_iff_ne, ne_eq]
        intro heq
        refine hnotin ?_
        rw [hgdid, ← heq]
        exact List.mem_map.mpr ⟨x, hx, rfl⟩
      rw [hsplit, deleteFirst_append hl₁' hp, List.filter_append]
      rw [List.filter_cons, if_neg (by simp [hgdid])]
      rw [List.filter_eq_self.mpr (fun x hx => by simp [hl₁' x hx]),
        List.filter_eq_self.mpr (fun x hx => by simp [hl₂' x hx])]
    have h2 : (deleteGraph s g).2.edges = s.edges.filter (fun e =>
        !(((s.nodes.filter (fun n => n.parent == g)).map (fun n => n._id)).contains e.source ||
          ((s.nodes.filter (fun n => n.parent == g)).map (fun n => n._id)).contains e.target)) := by
      rw [deleteGraph_ok hf]
      show (if ((s.nodes.filter (fun n => n.parent == g)).map (fun n => n._id)).length > 0 then
          s.edges.filter _ else s.edges) = _
      by_cases hc : ((s.nodes.filter (fun n => n.parent == g)).map (fun n => n._id)).length > 0
      · rw [if_pos hc]
      · rw [if_neg hc]
        have hnil : (s.nodes.filter (fun n => n.parent == g)).map (fun n => n._id) = [] :=
          List.eq_nil_of_length_eq_zero (Nat.eq_zero_of_not_pos hc)
        rw [hnil]
        simp
    refine ⟨h0, h1, h3, h2, fun n hn => ?_, fun gd' hgd' => ?_,
      fun e he n hn hp => ?_, fun e he hfar => ?_, h4⟩
    · rw [h1] at hn
      have := (List.mem_filter.mp hn).2
      simpa using this
    · rw [h3] at hgd'
      have := (List.mem_filter.mp hgd').2
      simpa using this
    · rw [h2] at he
      have hpred := (List.mem_filter.mp he).2
      simp only [Bool.not_eq_true', Bool.or_eq_false_iff] at hpred
      have hsc := (contains_eq_false_iff _ _).mp hpred.1
      have htc := (contains_eq_false_iff _ _).mp hpred.2
      have hidmem : n._id ∈ (s.nodes.filter (fun x => x.parent == g)).map
          (fun x => x._id) :=
        List.mem_map.mpr ⟨n, List.mem_filter.mpr ⟨hn, by simp [hp]⟩, rfl⟩
      exact ⟨fun heq => hsc (by rw [heq]; exact hidmem),
        fun heq => htc (by rw [heq]; exact hidmem)⟩
    · rw [h2]
      refine List.mem_filter.mpr ⟨he, ?_⟩
      simp only [Bool.not_eq_true', Bool.or_eq_false_iff]
      refine ⟨(contains_eq_false_iff _ _).mpr ?_, (contains_eq_false_iff _ _).mpr ?_⟩
      · intro hm
        obtain ⟨n, hnf, hnid⟩ := List.mem_map.mp hm
        have hnmem := List.mem_filter.mp hnf
        have hng : n.parent = g := by simpa using hnmem.2
        exact (hfar n hnmem.1 hng).1 hnid.symm
      · intro hm
        obtain ⟨n, hnf, hnid⟩ := List.mem_map.mp hm
        have hnmem := List.mem_filter.mp hnf
        have hng : n.parent = g := by simpa using hnmem.2
        exact (hfar n hnmem.1 hng).2 hnid.symm

/-- Witness for C7: deleting graph 6 from the two-graph store. -/
theorem C7_deleteGraph_cascade_frame_witness :
    (deleteGraph demoStore2 6).1 = .ok () ∧
    (deleteGraph demoStore2 6).2.nodes =
      demoStore2.nodes.filter (fun n => !(n.parent == 6)) ∧
    (deleteGraph demoStore2 6).2.graphs =
      demoStore2.graphs.filter (fun x => !(x._id == 6)) ∧
    (deleteGraph demoStore2 6).2.edges = demoStore2.edges.filter (fun e =>
      !(((demoStore2.nodes.filter (fun n => n.parent == 6)).map (fun n => n._id)).contains e.source ||
        ((demoStore2.nodes.filter (fun n => n.parent == 6)).map (fun n => n._id)).contains e.target)) ∧
    (∀ n ∈ (deleteGraph demoStore2 6).2.nodes, n.parent ≠ 6) ∧
    (∀ gd ∈ (deleteGraph demoStore2 6).2.graphs, gd._id ≠ 6) ∧
    (∀ e ∈ (deleteGraph demoStore2 6).2.edges, ∀ n ∈ demoStore2.nodes,
      n.parent = 6 → e.source ≠ n._id ∧ e.target ≠ n._id) ∧
    (∀ e ∈ demoStore2.edges,
      (∀ n ∈ demoStore2.nodes, n.parent = 6 →
        e.source ≠ n._id ∧ e.target ≠ n._id) →
      e ∈ (deleteGraph demoStore2 6).2.edges) ∧
    (deleteGraph demoStore2 6).2.nextId = demoStore2.nextId :=
  C7_deleteGraph_cascade_frame demoStore2 6 (by decide)
    ⟨⟨6, 100, "Other"⟩, by decide, rfl⟩


/-- C8 counterexample: node 1 exists in graph 0 with title "A", yet renaming
it to its own current title is rejected with the DuplicateTitle error — the
duplicate lookup finds the node itself, so the claim that a self-rename is
not a conflict is false on the code. -/
theorem C8_counterexample :
    (∃ nd ∈ c8Store.nodes, nd._id = 1 ∧ nd.parent = 0 ∧ nd.title = "A") ∧
    (changeNodeTitle c8Store 0 1 "A").1 = .error .duplicateNodeTitle := by
  constructor
  · exact ⟨⟨1, 0, "A", 7⟩, by decide, rfl, rfl, rfl⟩
  · decide

/-- C8 amended: renaming an existing node of the graph to its own current
title IS treated as a conflict — the duplicate-title lookup does not exclude
the renamed node itself, so the call fails with DuplicateTitle and leaves
the store unchanged. -/
theorem C8_self_rename_rejected (s : StoreState) (g node : NodeId)
    (t : String) (doc : NodeDoc)
    (hf : s.nodes.find? (fun n => n._id == node) = some doc)
    (hp : doc.parent = g) (ht : doc.title = t) :
    changeNodeTitle s g node t = (.error .duplicateNodeTitle, s) := by
  cases hdup : s.nodes.find? (fun n => n.parent == g && n.title == t) with
  | some other => exact changeNodeTitle_dup hf hp hdup
  | none =>
    exfalso
    have := List.find?_eq_none.mp hdup doc (List.mem_of_find?_eq_some hf)
    simp [hp, ht] at this

/-- Witness for the amended C8 at the one-node store. -/
theorem C8_self_rename_rejected_witness :
    changeNodeTitle c8Store 0 1 "A" = (.error .duplicateNodeTitle, c8Store) :=
  C8_self_rename_rejected c8Store 0 1 "A" ⟨1, 0, "A", 7⟩ (by decide) rfl rfl

/-- C9: in a reachable store, the graph-scoped queries on an identifier that
is not a graph of the store (a never-created or just-deleted graph) return
the empty list; by their return type these queries have no error outcome. -/
theorem C9_missing_graph_queries_empty (s : StoreState) (h : ReachableState s)
    (g : NodeId) (hng : ∀ gd ∈ s.graphs, gd._id ≠ g) :
    _getGraphNodes s g = [] ∧ _getGraphEdges s g = [] := by
  have hinv := storeInv_reachable h
  have hnodes : s.nodes.filter (fun n => n.parent == g) = [] := by
    rw [List.filter_eq_nil_iff]
    intro n hn
    obtain ⟨gd, hgd, hid⟩ := hinv.parents n hn
    simp [← hid, hng gd hgd]
  refine ⟨hnodes, ?_⟩
  rw [_getGraphEdges]
  simp [hnodes]

/-- Witness for C9: querying the deleted graph 6 and the never-created
graph 42. -/
theorem C9_missing_graph_queries_empty_witness :
    _getGraphNodes (deleteGraph demoStore2 6).2 6 = [] ∧
    _getGraphEdges (deleteGraph demoStore2 6).2 6 = [] :=
  C9_missing_graph_queries_empty (deleteGraph demoStore2 6).2
    (.step demoStore2 (.deleteGraph 6) reachable_demoStore2) 6 (by decide)

/-- C10: `accessEdge` checks only that the graph exists and never compares
the endpoints with it: any stored edge with the requested `(source, target)`
pair is returned even when its endpoints belong to a different graph.
(Pairwise distinctness of `(source, target)` pairs is the store invariant
enforced by the `addEdge` duplicate check.) -/
theorem C10_accessEdge_ignores_endpoint_membership (s : StoreState)
    (g a b : NodeId) (gd : GraphDoc)
    (hg : s.graphs.find? (fun x => x._id == g) = some gd)
    (ed : EdgeDoc) (hed : ed ∈ s.edges) (hsrc : ed.source = a)
    (htgt : ed.target = b)
    (huniq : s.edges.Pairwise
      (fun e1 e2 => ¬(e1.source = e2.source ∧ e1.target = e2.target))) :
    accessEdge s g a b = .ok ed._id := by
  cases hfind : s.edges.find? (fun x => x.source == a && x.target == b) with
  | none =>
    exfalso
    have := List.find?_eq_none.mp hfind ed hed
    simp [hsrc, htgt] at this
  | some ed' =>
    rw [accessEdge_found hg hfind]
    have hp := List.find?_some hfind
    have hmem' := List.mem_of_find?_eq_some hfind
    simp only [Bool.and_eq_true, beq_iff_eq] at hp
    by_cases heq : ed = ed'
    · rw [heq]
    · exfalso
      have hsym : Symmetric (fun e1 e2 : EdgeDoc =>
          ¬(e1.source = e2.source ∧ e1.target = e2.target)) := by
        intro x y hxy hc
        exact hxy ⟨hc.1.symm, hc.2.symm⟩
      exact (List.Pairwise.forall hsym huniq hed hmem' heq)
        ⟨by rw [hsrc, hp.1], by rw [htgt, hp.2]⟩

/-- Witness for C10: with graph 0 given, the edge 7→8 of graph 6 is
returned. -/
theorem C10_accessEdge_ignores_endpoint_membership_witness :
    accessEdge demoStore2 0 7 8 = .ok 9 :=
  C10_accessEdge_ignores_endpoint_membership demoStore2 0 7 8
    ⟨0, 100, "Deps"⟩ (by decide) ⟨9, 7, 8, 9⟩ (by decide) rfl rfl (by decide)
